import Mathlib

/-!
Verification of the GPUFabric remote inference worker core against its
natural-language specification.

The development shallowly embeds the C sources of `gpuf-c`:

* `target/real_llama/llama_binding.c` — the simulated llama.cpp binding
  (`llama_free_model`, `llama_free`, `llama_generate_text`) is embedded
  directly from the C code.  Pointers are natural numbers (`0` is `NULL`),
  the allocation heap is a list of live pointers, and C byte strings are
  lists of byte values.
* The worker runtime declared in `gpuf_c.h` (model hot swap, sampler chain,
  generation sessions, multimodal chunking, worker status).  Its
  implementation is not part of the C sources, so those components are
  modelled from the specification and from the contracts documented in the
  header, as indicated on each definition.
-/

set_option linter.unusedVariables false

namespace GPUFabric

/-! ## Byte strings and the simulated llama binding (llama_binding.c) -/

/-- UTF-8 encoding of a single character, as a list of byte values. -/
def charBytes (c : Char) : List Nat :=
  let n := c.toNat
  if n < 0x80 then [n]
  else if n < 0x800 then
    [0xC0 ||| (n >>> 6), 0x80 ||| (n &&& 0x3F)]
  else if n < 0x10000 then
    [0xE0 ||| (n >>> 12), 0x80 ||| ((n >>> 6) &&& 0x3F), 0x80 ||| (n &&& 0x3F)]
  else
    [0xF0 ||| (n >>> 18), 0x80 ||| ((n >>> 12) &&& 0x3F),
     0x80 ||| ((n >>> 6) &&& 0x3F), 0x80 ||| (n &&& 0x3F)]

/-- The UTF-8 bytes of a string literal appearing in the C source. -/
def strBytes (s : String) : List Nat :=
  s.data.flatMap charBytes

/-- Decimal rendering of an `int` by `printf`-style `%d`, as bytes. -/
def decBytes (n : Int) : List Nat :=
  (toString n).data.map Char.toNat

/-- Rendering of a C string argument by `%s`: bytes up to the first NUL. -/
def pctS (s : List Nat) : List Nat :=
  s.takeWhile (fun b => b ≠ 0)

/-- C `snprintf(buf, size, ...)` with `size > 0`: writes at most `size - 1`
bytes of the formatted string and always NUL-terminates the buffer. -/
def snprintfBytes (size : Nat) (s : List Nat) : List Nat :=
  s.take (size - 1) ++ [0]

/-- C `free(p)`: removes the allocation `p` from the heap. -/
def freeC (p : Nat) (heap : List Nat) : List Nat :=
  heap.erase p

/-- Function `llama_free_model` from `llama_binding.c`:
`void llama_free_model(llama_model* model) \x7b if (model) free(model); \x7d` -/
def llama_free_model (model : Nat) (heap : List Nat) : List Nat :=
  if model ≠ 0 then freeC model heap else heap

/-- Function `llama_free` from `llama_binding.c`:
`void llama_free(llama_context* ctx) \x7b if (ctx) free(ctx); \x7d` -/
def llama_free (ctx : Nat) (heap : List Nat) : List Nat :=
  if ctx ≠ 0 then freeC ctx heap else heap

/-- Address of the `static char response[4096]` buffer of
`llama_generate_text`.  A single fixed location: every call returns it. -/
def responseAddr : Nat := 1

/-- Function `llama_generate_text` from `llama_binding.c`: formats the prompt and
`max_tokens` into the static 4096-byte `response` buffer with `snprintf`
and returns the buffer's address together with its contents.  The
`ctx` argument is accepted but never used by the C body. -/
def llama_generate_text (ctx : Nat) (prompt : List Nat) (max_tokens : Int) :
    Nat × List Nat :=
  (responseAddr,
    snprintfBytes 4096
      (strBytes "🤖 Real LLAMA.cpp Response:\nPrompt: " ++
       pctS prompt ++
       strBytes "\nMax Tokens: " ++
       decBytes max_tokens ++
       strBytes "\nGenerated: This is a real LLAMA.cpp inference response running on Android!\nThe model has been loaded and is processing your request.\nThis demonstrates the complete integration pipeline."))

/-! ## Theorems for the llama binding -/

lemma snprintfBytes_length_le (size : Nat) (s : List Nat) (h : 0 < size) :
    (snprintfBytes size s).length ≤ size := by
  have := List.length_take_le (size - 1) s
  simp only [snprintfBytes, List.length_append, List.length_singleton]
  omega

lemma snprintfBytes_getLast (size : Nat) (s : List Nat) :
    (snprintfBytes size s).getLast? = some 0 := by
  simp [snprintfBytes]

/-- C9: `llama_free_model` and `llama_free` are null-tolerant: called with
the NULL pointer they leave the allocation heap exactly as it was —
nothing is deallocated and there is no other effect. -/
theorem null_free_is_noop :
    ∀ heap : List Nat,
      llama_free_model 0 heap = heap ∧ llama_free 0 heap = heap := by
  intro heap
  constructor <;> simp [llama_free_model, llama_free]

/-- C10: the result of `llama_generate_text` does not depend on the context
handle (NULL included): any two context handles give identical output for
identical `(prompt, max_tokens)`.  Moreover every call returns the one
static buffer `responseAddr`, the buffer contents are NUL-terminated, and
they never exceed 4096 bytes. -/
theorem llama_generate_text_ctx_free :
    ∀ (ctx₁ ctx₂ : Nat) (prompt : List Nat) (max_tokens : Int),
      llama_generate_text ctx₁ prompt max_tokens =
        llama_generate_text ctx₂ prompt max_tokens ∧
      (llama_generate_text ctx₁ prompt max_tokens).1 = responseAddr ∧
      (llama_generate_text ctx₁ prompt max_tokens).2.length ≤ 4096 ∧
      (llama_generate_text ctx₁ prompt max_tokens).2.getLast? = some 0 := by
  intro ctx₁ ctx₂ prompt max_tokens
  refine ⟨rfl, rfl, ?_, ?_⟩
  · exact snprintfBytes_length_le 4096 _ (by norm_num)
  · exact snprintfBytes_getLast 4096 _

/-! ## SamplerChain

Modelled from the spec: the sampler implementation lives behind the opaque
`llama_sampler_*` backend functions declared in `gpuf_c.h`
(`llama_sampler_init_penalties`, `llama_sampler_init_top_k`,
`llama_sampler_init_top_p`, `llama_sampler_init_temp`,
`llama_sampler_init_dist`, `llama_sampler_init_greedy`,
`llama_sampler_sample`); only their declarations are in the sources.  The
chain is modelled from spec §4.2: penalties over the last `penalty_window`
tokens, then top-k, then top-p on the normalized mass, then temperature
(zero temperature short-circuits to the greedy argmax, as with
`llama_sampler_init_greedy`), then a seed-determined draw from the
remaining candidates.  Logits are rationals; the backend's `exp` and its
RNG draw are abstracted by the computable `expApprox` (positive, monotone)
and by reducing the seed modulo the number of remaining candidates. -/

/-- Sampling configuration, from spec §3 (`SamplingConfig`). -/
structure SamplingConfig where
  temperature : ℚ
  top_k : Nat
  top_p : ℚ
  repeat_penalty : ℚ
  penalty_window : Nat

/-- Candidates paired with their token ids: `withIdx l i` is the list of
`(token id, logit)` pairs for `l`, ids starting at `i`. -/
def withIdx : List ℚ → Nat → List (Nat × ℚ)
  | [], _ => []
  | x :: xs, i => (i, x) :: withIdx xs (i + 1)

/-- Repetition penalty on one candidate: a positive logit of a token seen
in the penalty window is divided by the penalty, a non-positive one is
multiplied by it. -/
def penalizeOne (window : List Nat) (rp : ℚ) (i : Nat) (x : ℚ) : ℚ :=
  if i ∈ window then (if 0 < x then x / rp else x * rp) else x

/-- Stage 1 of the chain: the candidate list after repetition penalties
over the last `penalty_window` emitted tokens of the history. -/
def candidates (logits : List ℚ) (history : List Nat) (cfg : SamplingConfig) :
    List (Nat × ℚ) :=
  (withIdx logits 0).map
    (fun p =>
      (p.1, penalizeOne (history.reverse.take cfg.penalty_window)
                        cfg.repeat_penalty p.1 p.2))

/-- Candidate `a` precedes candidate `b` in sampling order: strictly larger
logit, or equal logit and smaller token id. -/
def precedes (a b : Nat × ℚ) : Prop :=
  b.2 < a.2 ∨ (a.2 = b.2 ∧ a.1 < b.1)

instance (a b : Nat × ℚ) : Decidable (precedes a b) := by
  unfold precedes; infer_instance

/-- Number of candidates preceding `c` (its rank in sampling order). -/
def rank (cands : List (Nat × ℚ)) (c : Nat × ℚ) : Nat :=
  (cands.filter (fun d => decide (precedes d c))).length

/-- Stage 2: top-k restriction (`k = 0` means no restriction): keep the
candidates whose rank is below `k`. -/
def topK (k : Nat) (cands : List (Nat × ℚ)) : List (Nat × ℚ) :=
  if k = 0 then cands else cands.filter (fun c => decide (rank cands c < k))

/-- Computable positive stand-in for the backend's `exp`. -/
def expApprox (x : ℚ) : ℚ :=
  if 0 ≤ x then 1 + x else 1 / (1 - x)

/-- Unnormalized probability weight of a candidate at temperature `t`. -/
def weight (t : ℚ) (c : Nat × ℚ) : ℚ :=
  expApprox (c.2 / t)

/-- Probability mass of the candidates preceding `c`. -/
def massBefore (t : ℚ) (cands : List (Nat × ℚ)) (c : Nat × ℚ) : ℚ :=
  ((cands.filter (fun d => decide (precedes d c))).map (weight t)).sum

/-- Stage 3: nucleus (top-p) restriction with `min_keep = 1`: keep a
candidate if it is the first in sampling order or if the mass preceding it
is still below `p` times the total mass. -/
def topP (p t : ℚ) (cands : List (Nat × ℚ)) : List (Nat × ℚ) :=
  cands.filter
    (fun c => decide (rank cands c < 1 ∨
      massBefore t cands c < p * ((cands.map (weight t)).sum)))

/-- The first candidate in sampling order (the greedy argmax, earliest
token id on ties). -/
def bestCand : List (Nat × ℚ) → Option (Nat × ℚ)
  | [] => none
  | c :: cs =>
    some (match bestCand cs with
          | none => c
          | some b => if c.2 < b.2 then b else c)

/-- Stage 5: the seed-determined draw from the remaining candidates,
abstracting the backend RNG (`llama_sampler_init_dist`). -/
def sampleFrom (seed : Nat) (cands : List (Nat × ℚ)) : Nat :=
  (cands.getD (seed % cands.length) (0, 0)).1

/-- Operation `SamplerChain.select` from spec §4.2: penalties, then — at zero
temperature — the greedy argmax bypassing top-k/top-p randomness
(`llama_sampler_init_greedy`), otherwise top-k, top-p and the seeded
draw. -/
def select (logits : List ℚ) (history : List Nat) (cfg : SamplingConfig)
    (seed : Nat) : Nat :=
  let cands := candidates logits history cfg
  if cfg.temperature ≤ 0 then
    match bestCand cands with
    | none => 0
    | some b => b.1
  else
    sampleFrom seed (topP cfg.top_p cfg.temperature (topK cfg.top_k cands))

/-! ### Sampler lemmas -/

lemma mem_withIdx {l : List ℚ} {i : Nat} {p : Nat × ℚ}
    (h : p ∈ withIdx l i) : i ≤ p.1 ∧ p.1 < i + l.length := by
  induction l generalizing i with
  | nil => simp [withIdx] at h
  | cons x xs ih =>
    simp only [withIdx, List.mem_cons] at h
    rcases h with h | h
    · subst h; simp
    · have := ih h
      simp only [List.length_cons]
      omega

lemma withIdx_pairwise (l : List ℚ) (i : Nat) :
    (withIdx l i).Pairwise (fun a b => a.1 < b.1) := by
  induction l generalizing i with
  | nil => simp [withIdx]
  | cons x xs ih =>
    refine List.Pairwise.cons ?_ (ih (i + 1))
    intro p hp
    have := (mem_withIdx hp).1
    simpa using this

lemma withIdx_ne_nil {l : List ℚ} (h : l ≠ []) (i : Nat) :
    withIdx l i ≠ [] := by
  cases l with
  | nil => exact absurd rfl h
  | cons x xs => simp [withIdx]

lemma mem_candidates_lt {logits : List ℚ} {history : List Nat}
    {cfg : SamplingConfig} {p : Nat × ℚ}
    (h : p ∈ candidates logits history cfg) : p.1 < logits.length := by
  simp only [candidates, List.mem_map] at h
  obtain ⟨q, hq, rfl⟩ := h
  have := (mem_withIdx hq).2
  simpa using this

lemma candidates_ne_nil {logits : List ℚ} (h : logits ≠ [])
    (history : List Nat) (cfg : SamplingConfig) :
    candidates logits history cfg ≠ [] := by
  simp only [candidates, ne_eq, List.map_eq_nil_iff]
  exact withIdx_ne_nil h 0

lemma candidates_pairwise (logits : List ℚ) (history : List Nat)
    (cfg : SamplingConfig) :
    (candidates logits history cfg).Pairwise (fun a b => a.1 < b.1) := by
  refine List.Pairwise.map _ ?_ (withIdx_pairwise logits 0)
  intro a b hab
  simpa using hab

lemma bestCand_isSome {l : List (Nat × ℚ)} (h : l ≠ []) :
    ∃ b, bestCand l = some b := by
  cases l with
  | nil => exact absurd rfl h
  | cons c cs => exact ⟨_, rfl⟩

lemma bestCand_mem {l : List (Nat × ℚ)} {b : Nat × ℚ}
    (h : bestCand l = some b) : b ∈ l := by
  induction l generalizing b with
  | nil => simp [bestCand] at h
  | cons c cs ih =>
    simp only [bestCand, Option.some.injEq] at h
    cases hcs : bestCand cs with
    | none => rw [hcs] at h; simp [← h]
    | some b' =>
      rw [hcs] at h
      by_cases hlt : c.2 < b'.2
      · simp only [if_pos hlt] at h
        exact List.mem_cons_of_mem _ (ih (h ▸ hcs))
      · simp only [if_neg hlt] at h
        simp [← h]

lemma bestCand_not_preceded {l : List (Nat × ℚ)} {b : Nat × ℚ}
    (hp : l.Pairwise (fun a b => a.1 < b.1))
    (h : bestCand l = some b) : ∀ d ∈ l, ¬ precedes d b := by
  induction l generalizing b with
  | nil => simp [bestCand] at h
  | cons c cs ih =>
    have hp' : cs.Pairwise (fun a b => a.1 < b.1) := hp.of_cons
    have hcfst : ∀ d ∈ cs, c.1 < d.1 := fun d hd =>
      List.rel_of_pairwise_cons hp hd
    simp only [bestCand, Option.some.injEq] at h
    cases hcs : bestCand cs with
    | none =>
      rw [hcs] at h
      have hnil : cs = [] := by
        cases cs with
        | nil => rfl
        | cons x xs => simp [bestCand] at hcs
      subst hnil
      intro d hd
      rcases List.mem_singleton.mp hd with rfl
      rw [← h]
      simp [precedes]
    | some b' =>
      rw [hcs] at h
      have ihb' := ih hp' hcs
      by_cases hlt : c.2 < b'.2
      · simp only [if_pos hlt] at h
        subst h
        intro d hd
        rcases List.mem_cons.mp hd with rfl | hd
        · rintro (h1 | ⟨h1, h2⟩)
          · exact absurd h1 (not_lt.mpr hlt.le)
          · exact absurd h1 (ne_of_lt hlt)
        · exact ihb' d hd
      · simp only [if_neg hlt] at h
        subst h
        have hble : b'.2 ≤ c.2 := not_lt.mp hlt
        intro d hd
        rcases List.mem_cons.mp hd with rfl | hd
        · rintro (h1 | ⟨h1, h2⟩)
          · exact absurd h1 (lt_irrefl _)
          · exact absurd h2 (lt_irrefl _)
        · have hd2 : d.2 ≤ b'.2 := by
            have := ihb' d hd
            simp only [precedes, not_or, not_and, not_lt] at this
            exact this.1
          rintro (h1 | ⟨h1, h2⟩)
          · exact absurd (hd2.trans hble) (not_le.mpr h1)
          · exact absurd h2 (not_lt.mpr (hcfst d hd).le)

lemma rank_eq_zero {l : List (Nat × ℚ)} {b : Nat × ℚ}
    (h : ∀ d ∈ l, ¬ precedes d b) : rank l b = 0 := by
  simp only [rank, List.length_eq_zero]
  refine List.filter_eq_nil_iff.mpr ?_
  intro d hd
  simpa using h d hd

lemma topK_subset {k : Nat} {cands : List (Nat × ℚ)} {c : Nat × ℚ}
    (h : c ∈ topK k cands) : c ∈ cands := by
  unfold topK at h
  split at h
  · exact h
  · exact List.mem_of_mem_filter h

lemma topK_pairwise {k : Nat} {cands : List (Nat × ℚ)}
    (hp : cands.Pairwise (fun a b => a.1 < b.1)) :
    (topK k cands).Pairwise (fun a b => a.1 < b.1) := by
  unfold topK
  split
  · exact hp
  · exact hp.sublist (List.filter_sublist _)

lemma topK_ne_nil {k : Nat} {cands : List (Nat × ℚ)} (hne : cands ≠ [])
    (hp : cands.Pairwise (fun a b => a.1 < b.1)) : topK k cands ≠ [] := by
  unfold topK
  split
  · exact hne
  · obtain ⟨b, hb⟩ := bestCand_isSome hne
    have hmem : b ∈ cands := bestCand_mem hb
    have hr : rank cands b = 0 :=
      rank_eq_zero (bestCand_not_preceded hp hb)
    refine List.ne_nil_of_mem (a := b) ?_
    refine List.mem_filter.mpr ⟨hmem, ?_⟩
    simp [hr]
    omega

lemma topP_subset {p t : ℚ} {cands : List (Nat × ℚ)} {c : Nat × ℚ}
    (h : c ∈ topP p t cands) : c ∈ cands :=
  List.mem_of_mem_filter h

lemma topP_ne_nil {p t : ℚ} {cands : List (Nat × ℚ)} (hne : cands ≠ [])
    (hp : cands.Pairwise (fun a b => a.1 < b.1)) : topP p t cands ≠ [] := by
  obtain ⟨b, hb⟩ := bestCand_isSome hne
  have hmem : b ∈ cands := bestCand_mem hb
  have hr : rank cands b = 0 :=
    rank_eq_zero (bestCand_not_preceded hp hb)
  refine List.ne_nil_of_mem (a := b) ?_
  refine List.mem_filter.mpr ⟨hmem, ?_⟩
  simp [hr]

lemma sampleFrom_mem {cands : List (Nat × ℚ)} (hne : cands ≠ [])
    (seed : Nat) : ∃ c ∈ cands, sampleFrom seed cands = c.1 := by
  have hpos : 0 < cands.length := List.length_pos.mpr hne
  have hlt : seed % cands.length < cands.length := Nat.mod_lt _ hpos
  refine ⟨cands.getD (seed % cands.length) (0, 0), ?_, rfl⟩
  rw [List.getD_eq_getElem cands (0, 0) hlt]
  exact List.getElem_mem hlt

/-! ## Synchronous generation

Modelled from the spec: `generate_sync` (spec §6) repeatedly evaluates the
backend decoder for logits over the history and selects the next token
with the sampler chain, stopping at an end-of-generation token
(`llama_vocab_is_eog`) or after `max_tokens` tokens.  The opaque decode
backend is a function from the token history to a logits vector. -/

/-- The opaque decode backend of a loaded model: logits for a history, and
the end-of-generation predicate of its vocabulary. -/
structure Model where
  evalLogits : List Nat → List ℚ
  isEog : Nat → Bool

/-- The decode loop of synchronous generation: one `select` per step,
appending the chosen token to the history, stopping on end-of-generation
or when the step budget runs out. -/
def genLoop (m : Model) (cfg : SamplingConfig) (seed : Nat) :
    Nat → List Nat → List Nat
  | 0, _ => []
  | n + 1, hist =>
    let t := select (m.evalLogits hist) hist cfg seed
    if m.isEog t then [] else t :: genLoop m cfg seed n (hist ++ [t])

/-- Operation `generate_sync` from spec §6: the token list produced for a prompt. -/
def generate_sync (m : Model) (prompt : List Nat) (cfg : SamplingConfig)
    (seed : Nat) (maxTokens : Nat) : List Nat :=
  genLoop m cfg seed maxTokens prompt

lemma select_temp_nonpos {logits : List ℚ} {history : List Nat}
    {cfg : SamplingConfig} (h : cfg.temperature ≤ 0) (seed : Nat) :
    select logits history cfg seed =
      match bestCand (candidates logits history cfg) with
      | none => 0
      | some b => b.1 := by
  simp only [select, if_pos h]

lemma genLoop_seed_free {m : Model} {cfg : SamplingConfig}
    (h : cfg.temperature = 0) (n : Nat) (hist : List Nat)
    (seed₁ seed₂ : Nat) :
    genLoop m cfg seed₁ n hist = genLoop m cfg seed₂ n hist := by
  induction n generalizing hist with
  | zero => rfl
  | succ n ih =>
    simp only [genLoop]
    rw [select_temp_nonpos (le_of_eq h) seed₁,
        select_temp_nonpos (le_of_eq h) seed₂]
    split
    · rfl
    · rw [ih]

/-! ### Claim theorems for the sampler and synchronous generation -/

/-- C4: for every nonempty logits vector, any history, sampling
configuration and seed, `select` returns a token id below the vocabulary
size, and the result is a deterministic function of
`(logits, history, config, seed)`: identical inputs give identical
outputs. -/
theorem select_in_range (logits : List ℚ) (history : List Nat)
    (cfg : SamplingConfig) (seed : Nat) (h : logits ≠ []) :
    select logits history cfg seed < logits.length ∧
    ∀ (logits' : List ℚ) (history' : List Nat) (cfg' : SamplingConfig)
      (seed' : Nat),
      logits' = logits → history' = history → cfg' = cfg → seed' = seed →
      select logits' history' cfg' seed' =
        select logits history cfg seed := by
  constructor
  · have hne := candidates_ne_nil h history cfg
    have hp := candidates_pairwise logits history cfg
    unfold select
    by_cases ht : cfg.temperature ≤ 0
    · simp only [if_pos ht]
      obtain ⟨b, hb⟩ := bestCand_isSome hne
      rw [hb]
      exact mem_candidates_lt (bestCand_mem hb)
    · simp only [if_neg ht]
      have hck := topK_ne_nil (k := cfg.top_k) hne hp
      have hp' := topK_pairwise (k := cfg.top_k) hp
      have hcp := topP_ne_nil (p := cfg.top_p) (t := cfg.temperature) hck hp'
      obtain ⟨c, hc, heq⟩ := sampleFrom_mem hcp seed
      rw [heq]
      exact mem_candidates_lt (topK_subset (topP_subset hc))
  · intro logits' history' cfg' seed' h1 h2 h3 h4
    rw [h1, h2, h3, h4]

/-- Witness for C4 at a concrete input. -/
theorem select_in_range_witness :
    select [(2 : ℚ), 1] [] ⟨0, 0, 1, 1, 0⟩ 0 < 2 :=
  (select_in_range [(2 : ℚ), 1] [] ⟨0, 0, 1, 1, 0⟩ 0 (by simp)).1

/-- C3: at temperature `0`, generation is deterministic — the produced
token stream does not depend on the sampler seed, because `select`
short-circuits to the greedy argmax over the penalized candidates,
bypassing the top-k/top-p randomness. -/
theorem generate_sync_deterministic (m : Model) (prompt : List Nat)
    (cfg : SamplingConfig) (h : cfg.temperature = 0) :
    (∀ seed₁ seed₂ maxTokens,
      generate_sync m prompt cfg seed₁ maxTokens =
        generate_sync m prompt cfg seed₂ maxTokens) ∧
    (∀ (logits : List ℚ) (history : List Nat) (seed : Nat),
      select logits history cfg seed =
        match bestCand (candidates logits history cfg) with
        | none => 0
        | some b => b.1) := by
  constructor
  · intro seed₁ seed₂ maxTokens
    exact genLoop_seed_free h maxTokens prompt seed₁ seed₂
  · intro logits history seed
    exact select_temp_nonpos (le_of_eq h) seed

/-- Witness for C3 at a concrete model, prompt and pair of seeds. -/
theorem generate_sync_deterministic_witness :
    generate_sync ⟨fun _ => [(1 : ℚ), 2], fun _ => false⟩ []
        ⟨0, 0, 1, 1, 0⟩ 5 3 =
      generate_sync ⟨fun _ => [(1 : ℚ), 2], fun _ => false⟩ []
        ⟨0, 0, 1, 1, 0⟩ 99 3 :=
  (generate_sync_deterministic _ _ _ rfl).1 5 99 3

/-! ## ModelSlot and set_remote_worker_model

Modelled from the spec: the hot-swap implementation behind
`set_remote_worker_model` is not in the C sources; `gpuf_c.h` documents its
contract (return `0` on success, `-1` backend initialization failed, `-2`
path conversion failed, `-3` model loading failed, `-4` context creation
failed, hot swap without stopping the worker) and spec §4.1 describes
`ModelSlot.load_and_swap` (load outside the lock, swap and generation
increment under the lock, failure leaves the slot untouched).  The
environment records which of the four steps succeed and what the backend
returns. -/

/-- The hot-swappable model slot, spec §3: current generation, active
model handle and its decode context. -/
structure ModelSlot where
  generation : Nat
  model : Option Nat
  context : Option Nat
  deriving DecidableEq

/-- Operation `snapshot()` from spec §4.1: the current `(generation, handle)`. -/
def ModelSlot.snapshot (s : ModelSlot) : Nat × Option Nat :=
  (s.generation, s.model)

/-- Outcome of the external steps of one `set_remote_worker_model` call:
backend initialization, path conversion, backend `load`, backend
`create_context`. -/
structure SwapEnv where
  backendOk : Bool
  pathOk : Bool
  loadResult : Option Nat
  ctxResult : Nat → Option Nat

/-- Operation `set_remote_worker_model` as documented in `gpuf_c.h` and spec §4.1:
each failing step returns its own negative code and leaves the slot as it
was; on success the new model and context are installed and the
generation increments. -/
def set_remote_worker_model (env : SwapEnv) (slot : ModelSlot) :
    Int × ModelSlot :=
  if !env.backendOk then (-1, slot)
  else if !env.pathOk then (-2, slot)
  else
    match env.loadResult with
    | none => (-3, slot)
    | some m =>
      match env.ctxResult m with
      | none => (-4, slot)
      | some c => (0, ⟨slot.generation + 1, some m, some c⟩)

/-- C1: every failing `set_remote_worker_model` call leaves the slot —
and hence its snapshot, the serving model and generation — unchanged, and
the returned code is one of `-1`, `-2`, `-3`, `-4`, each code holding
exactly for its own failure kind (so the codes are distinct). -/
theorem set_remote_worker_model_error_contract (env : SwapEnv)
    (slot : ModelSlot) (hfail : (set_remote_worker_model env slot).1 ≠ 0) :
    (set_remote_worker_model env slot).2 = slot ∧
    (set_remote_worker_model env slot).2.snapshot = slot.snapshot ∧
    ((set_remote_worker_model env slot).1 = -1 ↔ env.backendOk = false) ∧
    ((set_remote_worker_model env slot).1 = -2 ↔
      env.backendOk = true ∧ env.pathOk = false) ∧
    ((set_remote_worker_model env slot).1 = -3 ↔
      env.backendOk = true ∧ env.pathOk = true ∧ env.loadResult = none) ∧
    ((set_remote_worker_model env slot).1 = -4 ↔
      env.backendOk = true ∧ env.pathOk = true ∧
      ∃ m, env.loadResult = some m ∧ env.ctxResult m = none) := by
  unfold set_remote_worker_model at *
  cases hb : env.backendOk with
  | false => simp [hb] at *
  | true =>
    cases hp : env.pathOk with
    | false => simp [hb, hp] at *
    | true =>
      cases hl : env.loadResult with
      | none => simp [hb, hp, hl] at *
      | some m =>
        cases hc : env.ctxResult m with
        | none => simp [hb, hp, hl, hc] at *
        | some c => simp [hb, hp, hl, hc] at hfail

/-- Witness for C1: a failing load (step three) at a concrete slot. -/
theorem set_remote_worker_model_error_contract_witness :
    (set_remote_worker_model
        ⟨true, true, none, fun _ => none⟩ ⟨7, some 3, some 4⟩).2 =
      ⟨7, some 3, some 4⟩ ∧
    (set_remote_worker_model
        ⟨true, true, none, fun _ => none⟩ ⟨7, some 3, some 4⟩).1 = -3 :=
  ⟨(set_remote_worker_model_error_contract
      ⟨true, true, none, fun _ => none⟩ ⟨7, some 3, some 4⟩ (by decide)).1,
   (set_remote_worker_model_error_contract
      ⟨true, true, none, fun _ => none⟩ ⟨7, some 3, some 4⟩
      (by decide)).2.2.2.2.1.mpr ⟨rfl, rfl, rfl⟩⟩

/-! ## Hot-swap lifecycle of models and sessions

Modelled from the spec: spec §4.1 and §5 describe the epoch/generation
discipline — a session snapshots `(generation, handle)` at creation, a
swap retires the previous slot content without freeing it, and a retired
handle is reclaimed only once no live session references its generation.
The worker runtime implementing it is not in the C sources, so it is
embedded as a transition system over the worker state. -/

/-- A generation session's snapshot of the slot at creation time. -/
structure SessionRef where
  sid : Nat
  generation : Nat
  model : Nat
  deriving DecidableEq

/-- Slot content as retired by a swap: the pair of a generation and the
model handle that was current at that generation. -/
structure Epoch where
  generation : Nat
  model : Nat
  deriving DecidableEq

/-- Worker state for the hot-swap lifecycle: the current slot content,
the live sessions with their captured snapshots, the replaced slot
contents awaiting reclamation, and the reclaimed (freed) ones. -/
structure WorkerState where
  current : Epoch
  live : List SessionRef
  retired : List Epoch
  freed : List Epoch
  deriving DecidableEq

/-- Lifecycle events: session creation (capturing the current snapshot),
a successful swap to a freshly loaded handle, session completion
(dropping its reference), and deferred reclamation of retired handles no
live session references. -/
inductive SwapStep where
  | start (sid : Nat)
  | swap (model : Nat)
  | finish (sid : Nat)
  | reclaim
  deriving DecidableEq

/-- Whether some live session references generation `g`. -/
def referenced (live : List SessionRef) (g : Nat) : Bool :=
  live.any (fun s => s.generation = g)

/-- One lifecycle transition, following spec §4.1/§5: `start` snapshots
the slot, `swap` retires the current content and increments the
generation, `finish` drops the session's reference, `reclaim` frees
exactly the retired contents whose generation no live session holds. -/
def swapStep (s : WorkerState) : SwapStep → WorkerState
  | .start sid =>
    { s with live := ⟨sid, s.current.generation, s.current.model⟩ :: s.live }
  | .swap m =>
    { s with current := ⟨s.current.generation + 1, m⟩,
             retired := s.current :: s.retired }
  | .finish sid =>
    { s with live := s.live.filter (fun r => r.sid ≠ sid) }
  | .reclaim =>
    { s with
      retired := s.retired.filter (fun e => referenced s.live e.generation),
      freed := s.retired.filter (fun e => ¬referenced s.live e.generation)
                 ++ s.freed }

/-- Running a trace of lifecycle events. -/
def swapRun (s : WorkerState) : List SwapStep → WorkerState
  | [] => s
  | st :: tr => swapRun (swapStep s st) tr

/-- Initial worker state after the first model is installed. -/
def initWorker (m : Nat) : WorkerState :=
  { current := ⟨0, m⟩, live := [], retired := [], freed := [] }

/-- The state invariant of the hot-swap discipline: retired and freed
generations are strictly older than the current one, live sessions never
postdate the slot, a session at the current generation holds the current
model, and no freed generation is referenced by a live session. -/
def SwapInv (s : WorkerState) : Prop :=
  (∀ e ∈ s.retired, e.generation < s.current.generation) ∧
  (∀ e ∈ s.freed, e.generation < s.current.generation) ∧
  (∀ r ∈ s.live, r.generation ≤ s.current.generation) ∧
  (∀ r ∈ s.live, r.generation = s.current.generation →
    r.model = s.current.model) ∧
  (∀ e ∈ s.freed, ∀ r ∈ s.live, r.generation ≠ e.generation)

lemma swapInv_init (m : Nat) : SwapInv (initWorker m) := by
  refine ⟨?_, ?_, ?_, ?_, ?_⟩ <;> simp [initWorker]

lemma swapInv_step {s : WorkerState} (h : SwapInv s) (st : SwapStep) :
    SwapInv (swapStep s st) := by
  obtain ⟨h1, h2, h3, h4, h5⟩ := h
  cases st with
  | start sid =>
    refine ⟨h1, h2, ?_, ?_, ?_⟩
    · intro r hr
      rcases List.mem_cons.mp hr with rfl | hr
      · exact le_refl _
      · exact h3 r hr
    · intro r hr hg
      rcases List.mem_cons.mp hr with rfl | hr
      · rfl
      · exact h4 r hr hg
    · intro e he r hr
      rcases List.mem_cons.mp hr with rfl | hr
      · exact fun hg => absurd (hg ▸ h2 e he) (lt_irrefl _)
      · exact h5 e he r hr
  | swap m =>
    refine ⟨?_, ?_, ?_, ?_, ?_⟩
    · intro e he
      rcases List.mem_cons.mp he with rfl | he
      · exact Nat.lt_succ_self _
      · exact Nat.lt_succ_of_lt (h1 e he)
    · intro e he
      exact Nat.lt_succ_of_lt (h2 e he)
    · intro r hr
      exact Nat.le_succ_of_le (h3 r hr)
    · intro r hr hg
      exfalso
      have hle := h3 r hr
      simp only [swapStep] at hg hr
      omega
    · exact fun e he r hr => h5 e he r hr
  | finish sid =>
    refine ⟨h1, h2, ?_, ?_, ?_⟩
    · exact fun r hr => h3 r (List.mem_of_mem_filter hr)
    · exact fun r hr => h4 r (List.mem_of_mem_filter hr)
    · exact fun e he r hr => h5 e he r (List.mem_of_mem_filter hr)
  | reclaim =>
    refine ⟨?_, ?_, h3, h4, ?_⟩
    · exact fun e he => h1 e (List.mem_of_mem_filter he)
    · intro e he
      rcases List.mem_append.mp he with he | he
      · exact h1 e (List.mem_of_mem_filter he)
      · exact h2 e he
    · intro e he r hr
      rcases List.mem_append.mp he with he | he
      · have hmem := List.mem_filter.mp he
        have hnoref : referenced s.live e.generation = false := by
          have := hmem.2
          simpa using this
        intro hg
        have : referenced s.live e.generation = true :=
          List.any_eq_true.mpr ⟨r, hr, by simp [hg]⟩
        rw [hnoref] at this
        exact Bool.false_ne_true this
      · exact h5 e he r hr

lemma swapInv_run {s : WorkerState} (h : SwapInv s) (tr : List SwapStep) :
    SwapInv (swapRun s tr) := by
  induction tr generalizing s with
  | nil => exact h
  | cons st tr ih => exact ih (swapInv_step h st)

/-- Whether a trace contains a `finish` for session `sid`. -/
def finishes (sid : Nat) : List SwapStep → Bool
  | [] => false
  | .finish s :: tr => if s = sid then true else finishes sid tr
  | _ :: tr => finishes sid tr

lemma swapStep_live_stable {s : WorkerState} {r : SessionRef}
    (hr : r ∈ s.live) (st : SwapStep) (hst : ∀ sid, st = .finish sid → sid ≠ r.sid) :
    r ∈ (swapStep s st).live := by
  cases st with
  | start sid => exact List.mem_cons_of_mem _ hr
  | swap m => exact hr
  | finish sid =>
    refine List.mem_filter.mpr ⟨hr, ?_⟩
    simpa using Ne.symm (hst sid rfl)
  | reclaim => exact hr

lemma swapRun_live_stable {s : WorkerState} {r : SessionRef}
    (hr : r ∈ s.live) (tr : List SwapStep)
    (htr : finishes r.sid tr = false) : r ∈ (swapRun s tr).live := by
  induction tr generalizing s with
  | nil => exact hr
  | cons st tr ih =>
    cases st with
    | finish sid =>
      by_cases hEq : sid = r.sid
      · subst hEq
        simp [finishes] at htr
      · have htr' : finishes r.sid tr = false := by
          simpa [finishes, hEq] using htr
        refine ih (swapStep_live_stable hr (.finish sid) ?_) htr'
        intro s' h'
        cases h'
        exact hEq
    | start sid =>
      exact ih (swapStep_live_stable hr (.start sid) (by intro s' h'; cases h'))
        (by simpa [finishes] using htr)
    | swap m =>
      exact ih (swapStep_live_stable hr (.swap m) (by intro s' h'; cases h'))
        (by simpa [finishes] using htr)
    | reclaim =>
      exact ih (swapStep_live_stable hr .reclaim (by intro s' h'; cases h'))
        (by simpa [finishes] using htr)

/-- C2: in every reachable worker state, (a) a live session keeps its
captured `(generation, model)` snapshot through any further events that do
not finish it — it keeps decoding against its creation-time snapshot,
unaffected by swaps; (b) no freed handle's generation is referenced by any
live session, so a replaced model outlives every session that captured it;
(c) a session started right after a swap captures exactly the newly
swapped model at the incremented generation. -/
theorem hot_swap_safety (m₀ : Nat) (tr : List SwapStep) :
    (∀ r ∈ (swapRun (initWorker m₀) tr).live, ∀ tr' : List SwapStep,
      finishes r.sid tr' = false →
      r ∈ (swapRun (swapRun (initWorker m₀) tr) tr').live) ∧
    (∀ e ∈ (swapRun (initWorker m₀) tr).freed,
      ∀ r ∈ (swapRun (initWorker m₀) tr).live,
        r.generation ≠ e.generation) ∧
    (∀ (mNew sid : Nat),
      (swapStep (swapStep (swapRun (initWorker m₀) tr) (.swap mNew))
          (.start sid)).live.head? =
        some ⟨sid, (swapRun (initWorker m₀) tr).current.generation + 1,
              mNew⟩) := by
  refine ⟨?_, ?_, ?_⟩
  · intro r hr tr' htr'
    exact swapRun_live_stable hr tr' htr'
  · exact (swapInv_run (swapInv_init m₀) tr).2.2.2.2
  · intro mNew sid
    rfl

/-- Witness for C2: the session started before the swap survives a
reclamation after the swap, still carrying its original snapshot. -/
theorem hot_swap_safety_witness :
    (⟨1, 0, 5⟩ : SessionRef) ∈
      (swapRun (swapRun (initWorker 5) [.start 1, .swap 9]) [.reclaim]).live :=
  (hot_swap_safety 5 [.start 1, .swap 9]).1 ⟨1, 0, 5⟩ (by decide)
    [.reclaim] (by decide)

/-! ## GenerationSession streaming and cancellation

Modelled from the spec: the streaming decode loop behind
`gpuf_generate_multimodal_stream` / `gpuf_start_generation_async` and
`gpuf_stop_generation` is not in the C sources.  Spec §4.4 fixes its
shape: per decode step, check the cooperative cancel flag first (if set,
finish as `Cancelled` with the partial count), otherwise decode one step —
which finishes as `Failed` with the partial count when the context window
is exhausted (no truncation policy configured) — then deliver the token
through the per-token callback, and stop on end-of-generation or when
`max_tokens` is reached; every terminal state invokes the completion
callback exactly once with the final token count.  Callback invocations
are modelled as the session's observable event list. -/

/-- Terminal session outcomes, spec §4.4. -/
inductive SessionOutcome where
  | Completed
  | Cancelled
  | Failed
  deriving DecidableEq

/-- Observable callback events of one session: one `token` event per
`on_token` invocation, one `complete` event per `on_complete`
invocation (carrying the reported final token count). -/
inductive SessionEvent where
  | token (id : Nat)
  | complete (count : Nat) (outcome : SessionOutcome)
  deriving DecidableEq

/-- Environment of one session run: the decode-plus-sampler result for
each step, the end-of-generation predicate, whether the decode step at
each count succeeds (`false` models the context window exhausted at that
step), the step count after which the cooperative cancel flag is observed
set (if ever), whether prefill succeeded, and the token budget. -/
structure SessionEnv where
  nextTok : Nat → Nat
  isEog : Nat → Bool
  decodeOk : Nat → Bool
  cancelAt : Option Nat
  prefillOk : Bool
  maxTokens : Nat

/-- The cancel flag as observed when `count` tokens have been delivered. -/
def cancelSet (env : SessionEnv) (count : Nat) : Bool :=
  match env.cancelAt with
  | none => false
  | some n => n ≤ count

/-- The decode loop of spec §4.4: check the cancel flag once per step;
then decode one step, finishing as `Failed` with the partial count when
the context window is exhausted; otherwise deliver the token and stop on
end-of-generation; `r` is the remaining token budget. -/
def decodeLoop (env : SessionEnv) : Nat → Nat → List SessionEvent
  | 0, count => [.complete count .Completed]
  | r + 1, count =>
    if cancelSet env count then [.complete count .Cancelled]
    else if !env.decodeOk count then [.complete count .Failed]
    else
      let t := env.nextTok count
      if env.isEog t then [.complete count .Completed]
      else .token t :: decodeLoop env r (count + 1)

/-- A whole session run: a prefill failure finishes as `Failed` without
entering the decode loop, otherwise the decode loop runs with the full
budget. -/
def runSession (env : SessionEnv) : List SessionEvent :=
  if !env.prefillOk then [.complete 0 .Failed]
  else decodeLoop env env.maxTokens 0

/-- Predicate selecting completion events. -/
def isCompleteEvent : SessionEvent → Bool
  | .complete _ _ => true
  | .token _ => false

lemma decodeLoop_shape (env : SessionEnv) (r c : Nat) :
    ∃ (ts : List Nat) (outcome : SessionOutcome),
      decodeLoop env r c =
        ts.map SessionEvent.token ++
          [.complete (c + ts.length) outcome] := by
  induction r generalizing c with
  | zero => exact ⟨[], .Completed, by simp [decodeLoop]⟩
  | succ r ih =>
    by_cases hc : cancelSet env c = true
    · exact ⟨[], .Cancelled, by simp [decodeLoop, hc]⟩
    · cases hdok : env.decodeOk c with
      | false => exact ⟨[], .Failed, by simp [decodeLoop, hc, hdok]⟩
      | true =>
        by_cases he : env.isEog (env.nextTok c) = true
        · refine ⟨[], .Completed, ?_⟩
          simp [decodeLoop, hc, hdok, he]
        · obtain ⟨ts, outcome, hts⟩ := ih (c + 1)
          refine ⟨env.nextTok c :: ts, outcome, ?_⟩
          rw [decodeLoop, if_neg (by simp [hc]), if_neg (by simp [hdok]),
            if_neg (by simp [he]), hts]
          simp only [List.map_cons, List.cons_append, List.length_cons]
          have harith : c + 1 + ts.length = c + (ts.length + 1) := by omega
          rw [harith]

/-- C5: every session run — completed, cancelled, failed at prefill or
failed mid-decode on an exhausted context window, after any number of
delivered tokens — is a block of `on_token` events followed by a single
final `on_complete` event: the completion callback fires exactly once,
and the final count it reports equals the number of per-token callback
invocations of the run (no token delivered is skipped or duplicated in
the count). -/
theorem session_events_shape (env : SessionEnv) :
    ∃ (ts : List Nat) (outcome : SessionOutcome),
      runSession env =
        ts.map SessionEvent.token ++ [.complete ts.length outcome] ∧
      (runSession env).countP isCompleteEvent = 1 := by
  unfold runSession
  by_cases hpf : env.prefillOk = true
  · rw [if_neg (by simp [hpf])]
    obtain ⟨ts, outcome, hts⟩ := decodeLoop_shape env env.maxTokens 0
    refine ⟨ts, outcome, ?_, ?_⟩
    · simpa using hts
    · rw [hts]
      simp [List.countP_append, List.countP_map, List.countP_eq_zero,
        Function.comp, isCompleteEvent, List.countP_cons]
  · rw [if_pos (by simp [hpf])]
    exact ⟨[], .Failed, by simp, by simp [List.countP_cons, isCompleteEvent]⟩

lemma decodeLoop_cancel {env : SessionEnv} {N : Nat}
    (hca : env.cancelAt = some N) :
    ∀ r c, c ≤ N → N < c + r →
      (∀ i, c ≤ i → i < N → env.isEog (env.nextTok i) = false) →
      (∀ i, c ≤ i → i < N → env.decodeOk i = true) →
      decodeLoop env r c =
        ((List.range' c (N - c)).map
          (fun i => SessionEvent.token (env.nextTok i))) ++
          [.complete N .Cancelled] := by
  intro r
  induction r with
  | zero => intro c hc hN _ _; omega
  | succ r ih =>
    intro c hc hN heog hdec
    by_cases hcN : c = N
    · subst hcN
      have hflag : cancelSet env c = true := by
        simp [cancelSet, hca]
      simp [decodeLoop, hflag]
    · have hlt : c < N := lt_of_le_of_ne hc hcN
      have hflag : cancelSet env c = false := by
        simp [cancelSet, hca]
        omega
      have hdokc : env.decodeOk c = true := hdec c (le_refl c) hlt
      have heogc : env.isEog (env.nextTok c) = false :=
        heog c (le_refl c) hlt
      rw [decodeLoop, if_neg (by simp [hflag]), if_neg (by simp [hdokc]),
        if_neg (by simp [heogc])]
      rw [ih (c + 1) hlt (by omega) (fun i hi hi' => heog i (by omega) hi')
        (fun i hi hi' => hdec i (by omega) hi')]
      have hrange : N - c = (N - (c + 1)) + 1 := by omega
      rw [hrange, List.range'_succ]
      simp

/-- C6: if the cancel flag is observed set once exactly `N` tokens have
been delivered (and generation would otherwise have continued), the run
consists of exactly those `N` `on_token` events followed immediately by
`on_complete` reporting exactly `N` tokens with outcome `Cancelled` — no
further `on_token` call happens after the flag's once-per-step check. -/
theorem cancel_stops_within_one_step (env : SessionEnv) (N : Nat)
    (hca : env.cancelAt = some N)
    (hpf : env.prefillOk = true)
    (hN : N < env.maxTokens)
    (heog : ∀ i < N, env.isEog (env.nextTok i) = false)
    (hdec : ∀ i < N, env.decodeOk i = true) :
    runSession env =
      ((List.range N).map
        (fun i => SessionEvent.token (env.nextTok i))) ++
        [.complete N .Cancelled] := by
  unfold runSession
  rw [if_neg (by simp [hpf])]
  rw [decodeLoop_cancel hca env.maxTokens 0 (Nat.zero_le N) (by omega)
    (fun i _ hi' => heog i hi') (fun i _ hi' => hdec i hi')]
  rw [List.range_eq_range']
  simp

/-- Witness for C6: cancellation observed after two delivered tokens in a
five-token-budget session stops the stream at exactly two tokens. -/
theorem cancel_stops_within_one_step_witness :
    runSession ⟨fun i => i + 10, fun _ => false, fun _ => true,
        some 2, true, 5⟩ =
      [.token 10, .token 11, .complete 2 .Cancelled] := by
  have h := cancel_stops_within_one_step
    ⟨fun i => i + 10, fun _ => false, fun _ => true, some 2, true, 5⟩ 2
    rfl rfl (by decide) (fun i _ => rfl) (fun i _ => rfl)
  simpa using h

/-! ## MultimodalEncoder

Modelled from the spec: `gpuf_generate_multimodal`'s chunking lives behind
the opaque `mtmd_*` backend in the sources; spec §4.3 fixes
`build_chunks`: split the prompt at the model's media marker, tokenize the
text segments, encode an image through the projector into an embedding
chunk spliced at the marker — and, for an unknown/unsupported projector
type, degrade to text-only with the marker stripped unless the caller
supplied a non-empty image, which is reported as `ProjectorUnsupported`.
The prompt is a list of symbols (text tokens and marker occurrences); the
image is an optional byte list. -/

/-- Projector types from `gpuf_c.h` (`ProjectorType`). -/
inductive ProjectorType where
  | Unknown
  | LLaVA
  | Qwen2VL
  | Qwen25VL
  | Qwen3VL
  | Pixtral
  deriving DecidableEq

/-- A prompt symbol: a text token or an occurrence of the model's media
marker. -/
inductive Sym where
  | tok (t : Nat)
  | marker
  deriving DecidableEq

/-- Chunks handed to prefill, spec §3: text token runs or one media
embedding. -/
inductive Chunk where
  | text (ts : List Nat)
  | media (embedding : List ℚ)
  deriving DecidableEq

/-- Multimodal errors from spec §7's taxonomy. -/
inductive MMError where
  | ImageDecodeFailed
  | ProjectorUnsupported
  deriving DecidableEq

/-- Whether the caller supplied a non-empty image. -/
def hasImage : Option (List Nat) → Bool
  | none => false
  | some img => !img.isEmpty

/-- The prompt with every media-marker occurrence stripped. -/
def stripMarkers (prompt : List Sym) : List Nat :=
  prompt.filterMap (fun s => match s with | .tok t => some t | .marker => none)

/-- Splice an embedding chunk at each marker occurrence, text runs in
between. -/
def splice (emb : List ℚ) : List Sym → List Nat → List Chunk
  | [], acc => [.text acc.reverse]
  | .tok t :: rest, acc => splice emb rest (t :: acc)
  | .marker :: rest, acc => .text acc.reverse :: .media emb :: splice emb rest []

/-- Operation `build_chunks` from spec §4.3.  `proj` is the opaque projector
backend: `none` models an image-decode/encode failure. -/
def build_chunks (ptype : ProjectorType) (proj : List Nat → Option (List ℚ))
    (prompt : List Sym) (image : Option (List Nat)) :
    Except MMError (List Chunk) :=
  if ptype = .Unknown then
    if hasImage image then .error .ProjectorUnsupported
    else .ok [.text (stripMarkers prompt)]
  else
    match image with
    | none => .ok [.text (stripMarkers prompt)]
    | some img =>
      if img.isEmpty then .ok [.text (stripMarkers prompt)]
      else
        match proj img with
        | none => .error .ImageDecodeFailed
        | some emb => .ok (splice emb prompt [])

/-- C7: with an unknown/unsupported projector type, a request without an
image (or with an empty one) succeeds text-only with the media marker
stripped, while a request with a non-empty image fails with precisely
`ProjectorUnsupported`. -/
theorem unknown_projector_degradation (ptype : ProjectorType)
    (proj : List Nat → Option (List ℚ)) (prompt : List Sym)
    (image : Option (List Nat)) (hp : ptype = .Unknown) :
    (hasImage image = false →
      build_chunks ptype proj prompt image =
        .ok [.text (stripMarkers prompt)]) ∧
    (hasImage image = true →
      build_chunks ptype proj prompt image =
        .error .ProjectorUnsupported) := by
  subst hp
  constructor
  · intro h
    simp [build_chunks, h]
  · intro h
    simp [build_chunks, h]

/-- Witness for C7: both degradation branches at concrete inputs. -/
theorem unknown_projector_degradation_witness :
    build_chunks .Unknown (fun _ => none) [.tok 3, .marker, .tok 4] none =
      .ok [.text [3, 4]] ∧
    build_chunks .Unknown (fun _ => none) [.tok 3, .marker, .tok 4]
        (some [9]) =
      .error .ProjectorUnsupported :=
  ⟨((unknown_projector_degradation .Unknown (fun _ => none)
      [.tok 3, .marker, .tok 4] none rfl).1 (by decide)).trans (by rfl),
   (unknown_projector_degradation .Unknown (fun _ => none)
      [.tok 3, .marker, .tok 4] (some [9]) rfl).2 (by decide)⟩

/-! ## get_remote_worker_status

Modelled from the spec: the implementation behind
`get_remote_worker_status` is not in the C sources.  `gpuf_c.h` documents
its contract — `0`: success, status written to the buffer; `-1`: error
(buffer too small or other error) — and spec §7 requires null/short-buffer
errors to be surfaced immediately with no retry.  The buffer is `none`
(NULL) or its capacity in bytes; `internalOk` is false when the header's
"other error" case applies; the call returns the code and, on success,
the NUL-terminated bytes written. -/

/-- Worker-side conditions of a `get_remote_worker_status` call: whether
the header's "other error" case is absent, and the status string bytes. -/
structure StatusEnv where
  internalOk : Bool
  status : List Nat

/-- Operation `get_remote_worker_status` as documented in `gpuf_c.h`: `0` with the
status written when the buffer is non-null and can hold the string with
its NUL terminator, `-1` for a NULL buffer, a too-small buffer, or any
other error. -/
def get_remote_worker_status (env : StatusEnv) (buffer : Option Nat) :
    Int × Option (List Nat) :=
  match buffer with
  | none => (-1, none)
  | some size =>
    if !env.internalOk then (-1, none)
    else if size < env.status.length + 1 then (-1, none)
    else (0, some (env.status ++ [0]))

/-- Counterexample to C8 as stated: the null-buffer failure and the
"other error" failure of the header return the same code `-1`, so the
null/short-buffer failure kind does not have a code distinct from the
codes of the other failure kinds. -/
theorem status_code_not_distinct :
    (get_remote_worker_status ⟨true, [65]⟩ none).1 = -1 ∧
    (get_remote_worker_status ⟨false, [65]⟩ (some 10)).1 = -1 ∧
    (get_remote_worker_status ⟨true, [65]⟩ none).1 =
      (get_remote_worker_status ⟨false, [65]⟩ (some 10)).1 :=
  ⟨rfl, rfl, rfl⟩

/-- C8 (amended): absent the header's "other error" case, a non-null
buffer large enough for the status string and its NUL terminator gets the
string written and `0` returned; a NULL buffer or a too-small buffer makes
the single, retry-free call fail at once with the nonzero code `-1`, a
code shared with the other failure kinds rather than distinct from them. -/
theorem get_remote_worker_status_contract (env : StatusEnv)
    (buffer : Option Nat) (hok : env.internalOk = true) :
    (∀ size, buffer = some size → env.status.length + 1 ≤ size →
      get_remote_worker_status env buffer = (0, some (env.status ++ [0]))) ∧
    (buffer = none → get_remote_worker_status env buffer = (-1, none)) ∧
    (∀ size, buffer = some size → size < env.status.length + 1 →
      get_remote_worker_status env buffer = (-1, none)) := by
  refine ⟨?_, ?_, ?_⟩
  · intro size hb hsz
    subst hb
    simp [get_remote_worker_status, hok, Nat.not_lt.mpr hsz]
  · intro hb
    subst hb
    rfl
  · intro size hb hsz
    subst hb
    simp [get_remote_worker_status, hok, hsz]

/-- Witness for C8 (amended): a large-enough buffer succeeds, a NULL
buffer fails with `-1`. -/
theorem get_remote_worker_status_contract_witness :
    get_remote_worker_status ⟨true, [65, 66]⟩ (some 3) =
      (0, some [65, 66, 0]) ∧
    get_remote_worker_status ⟨true, [65, 66]⟩ none = (-1, none) :=
  ⟨(get_remote_worker_status_contract ⟨true, [65, 66]⟩ (some 3) rfl).1 3
      rfl (by decide),
   (get_remote_worker_status_contract ⟨true, [65, 66]⟩ none rfl).2.1 rfl⟩

end GPUFabric
